import Mathlib

/-!
Shallow embedding of `american_option_binomial` from
`src/notebooks/binomial_tree.ipynb` (Cox-Ross-Rubinstein binomial pricer
for American options), together with the comparison definitions the
specification talks about.  Machine floats are modelled by real numbers;
the inputs on which the float evaluation would leave real-number
semantics (Python integer division by zero, square root of a negative
number, real division by a zero denominator producing inf/NaN) are
tracked by `american_option_binomial_checked`.
-/

namespace BinomialTree

/-- Payoff selection from the source: the branch `if option_type == 'call'`
uses `max(asset - K, 0)`; every other string falls into the `else` branch
and uses the put payoff `max(K - asset, 0)`. -/
noncomputable def payoff (optionType : String) (K s : ℝ) : ℝ :=
  if optionType = "call" then max (s - K) 0 else max (K - s) 0

/-- Source line `dt = T / N`. -/
noncomputable def dtOf (T : ℝ) (N : ℕ) : ℝ := T / N

/-- Source line `u = np.exp(sigma * np.sqrt(dt))`. -/
noncomputable def uOf (sigma T : ℝ) (N : ℕ) : ℝ :=
  Real.exp (sigma * Real.sqrt (dtOf T N))

/-- Source line `d = 1 / u`. -/
noncomputable def dOf (sigma T : ℝ) (N : ℕ) : ℝ := 1 / uOf sigma T N

/-- Source line `p = (np.exp((r - q) * dt) - d) / (u - d)`. -/
noncomputable def pOf (r q sigma T : ℝ) (N : ℕ) : ℝ :=
  (Real.exp ((r - q) * dtOf T N) - dOf sigma T N) /
    (uOf sigma T N - dOf sigma T N)

/-- Source line `discount = np.exp(-r * dt)`. -/
noncomputable def discOf (r T : ℝ) (N : ℕ) : ℝ := Real.exp (-r * dtOf T N)

/-- Source line
`asset_prices = np.array([S * (u**j) * (d**(N-j)) for j in range(N+1)])`. -/
noncomputable def terminalAssets (S sigma T : ℝ) (N : ℕ) : List ℝ :=
  (List.range (N + 1)).map
    (fun j => S * uOf sigma T N ^ j * dOf sigma T N ^ (N - j))

/-- Option values at maturity: the payoff applied to every terminal asset
price (`np.maximum(asset_prices - K, 0)` resp. `np.maximum(K - asset_prices, 0)`). -/
noncomputable def terminalValues (S K sigma T : ℝ) (N : ℕ) (kind : String) :
    List ℝ :=
  (terminalAssets S sigma T N).map (payoff kind K)

/-- One iteration of the backward loop at index `i`:
`asset_prices = asset_prices[:i+1] / u`;
`option_values = (p * option_values[1:] + (1-p) * option_values[:-1]) * discount`;
then the early-exercise comparison
`option_values = np.maximum(option_values, exercise)` where `exercise` is
the payoff evaluated at the updated asset prices.  The updated asset-price
list is written out twice because the source assigns it first and then
reads it back for `exercise`. -/
noncomputable def backstep (u p disc K : ℝ) (kind : String) (i : ℕ)
    (st : List ℝ × List ℝ) : List ℝ × List ℝ :=
  ((st.1.take (i + 1)).map (fun x => x / u),
   List.zipWith max
     (List.zipWith (fun a b => (p * a + (1 - p) * b) * disc)
       st.2.tail st.2.dropLast)
     (((st.1.take (i + 1)).map (fun x => x / u)).map
       (fun s => payoff kind K s)))

/-- The loop `for i in range(N-1, -1, -1)`: `runDown u p disc K kind m`
performs the loop body for `i = m-1, m-2, ..., 0`. -/
noncomputable def runDown (u p disc K : ℝ) (kind : String) :
    ℕ → List ℝ × List ℝ → List ℝ × List ℝ
  | 0, st => st
  | m + 1, st => runDown u p disc K kind m (backstep u p disc K kind m st)

/-- The pricer `american_option_binomial(S, K, T, r, sigma, q, N, option_type)`
from the source; the returned value is `option_values[0]` after the loop
(`headI`: for every `N` the remaining list is nonempty, see the length
invariant proved below). -/
noncomputable def american_option_binomial (S K T r sigma q : ℝ) (N : ℕ)
    (kind : String) : ℝ :=
  ((runDown (uOf sigma T N) (pOf r q sigma T N) (discOf r T N) K kind N
      (terminalAssets S sigma T N, terminalValues S K sigma T N kind)).2).headI

/-- Comparison definition following the spec's words: one iteration of the
same backward induction with the early-exercise comparison removed (the
option values are the pure discounted expectation, with no `max` against
intrinsic value). -/
noncomputable def backstepNoExercise (u p disc : ℝ) (i : ℕ)
    (st : List ℝ × List ℝ) : List ℝ × List ℝ :=
  ((st.1.take (i + 1)).map (fun x => x / u),
   List.zipWith (fun a b => (p * a + (1 - p) * b) * disc)
     st.2.tail st.2.dropLast)

/-- The backward loop without the early-exercise comparison. -/
noncomputable def runDownNoExercise (u p disc : ℝ) :
    ℕ → List ℝ × List ℝ → List ℝ × List ℝ
  | 0, st => st
  | m + 1, st => runDownNoExercise u p disc m (backstepNoExercise u p disc m st)

/-- Comparison definition following the spec's words: the price obtained
from the identical lattice by disabling the early-exercise comparison
(pure discounted risk-neutral expectation). -/
noncomputable def price_no_early_exercise (S K T r sigma q : ℝ) (N : ℕ)
    (kind : String) : ℝ :=
  ((runDownNoExercise (uOf sigma T N) (pOf r q sigma T N) (discOf r T N) N
      (terminalAssets S sigma T N, terminalValues S K sigma T N kind)).2).headI

/-- The ways the float evaluation of the source leaves real-number
semantics: `intDivByZero` is Python's `ZeroDivisionError` raised by
`T / N` when `N = 0`; `sqrtOfNegative` is `np.sqrt` of a negative `dt`
(NaN); `realDivByZero` is a float division with zero denominator, which
numpy turns into inf/NaN (the `u - d` denominator of `p`). -/
inductive NumericHazard
  | intDivByZero
  | sqrtOfNegative
  | realDivByZero

/-- Hazard-tracking wrapper around the pricer: it flags, in source order,
the inputs on which the Python/numpy evaluation would raise or produce a
non-real value, and on all other inputs the float computation follows the
real-valued `american_option_binomial`. -/
noncomputable def american_option_binomial_checked (S K T r sigma q : ℝ)
    (N : ℕ) (kind : String) : Except NumericHazard ℝ :=
  if N = 0 then .error .intDivByZero
  else if dtOf T N < 0 then .error .sqrtOfNegative
  else if uOf sigma T N - dOf sigma T N = 0 then .error .realDivByZero
  else .ok (american_option_binomial S K T r sigma q N kind)

/-! ## Helper lemmas: payoff selection depends only on whether `kind = "call"` -/

lemma payoff_put (K s : ℝ) : payoff "put" K s = max (K - s) 0 := by
  simp [payoff]

lemma payoff_call (K s : ℝ) : payoff "call" K s = max (s - K) 0 := by
  simp [payoff]

lemma payoff_of_ne_call {kind : String} (h : kind ≠ "call") :
    payoff kind = payoff "put" := by
  funext K s
  simp [payoff, h]

lemma backstep_of_ne_call {kind : String} (h : kind ≠ "call")
    (u p disc K : ℝ) (i : ℕ) (st : List ℝ × List ℝ) :
    backstep u p disc K kind i st = backstep u p disc K "put" i st := by
  simp [backstep, payoff_of_ne_call h]

lemma runDown_of_ne_call {kind : String} (h : kind ≠ "call")
    (u p disc K : ℝ) : ∀ (m : ℕ) (st : List ℝ × List ℝ),
    runDown u p disc K kind m st = runDown u p disc K "put" m st := by
  intro m
  induction m with
  | zero => intro st; rfl
  | succ m ih =>
      intro st
      simp only [runDown]
      rw [backstep_of_ne_call h, ih]

lemma terminalValues_of_ne_call {kind : String} (h : kind ≠ "call")
    (S K sigma T : ℝ) (N : ℕ) :
    terminalValues S K sigma T N kind = terminalValues S K sigma T N "put" := by
  simp [terminalValues, payoff_of_ne_call h]

/-- Every option kind other than the string `"call"` takes the `else`
branch of both payoff sites, so it is priced exactly like `"put"`. -/
lemma american_of_ne_call (S K T r sigma q : ℝ) (N : ℕ) {kind : String}
    (h : kind ≠ "call") :
    american_option_binomial S K T r sigma q N kind =
      american_option_binomial S K T r sigma q N "put" := by
  rw [american_option_binomial, american_option_binomial,
    terminalValues_of_ne_call h, runDown_of_ne_call h]

/-! ## Helper lemmas: lattice lengths -/

lemma backstep_fst_length (u p disc K : ℝ) (kind : String) (i : ℕ)
    (ps vs : List ℝ) (h1 : ps.length = i + 2) :
    (backstep u p disc K kind i (ps, vs)).1.length = i + 1 := by
  simp [backstep, List.length_take, h1]

lemma backstep_snd_length (u p disc K : ℝ) (kind : String) (i : ℕ)
    (ps vs : List ℝ) (h1 : ps.length = i + 2) (h2 : vs.length = i + 2) :
    (backstep u p disc K kind i (ps, vs)).2.length = i + 1 := by
  simp [backstep, List.length_zipWith, List.length_take, List.length_tail,
    List.length_dropLast, h1, h2]

lemma runDown_lengths (u p disc K : ℝ) (kind : String) :
    ∀ (m : ℕ) (ps vs : List ℝ), ps.length = m + 1 → vs.length = m + 1 →
      (runDown u p disc K kind m (ps, vs)).1.length = 1 ∧
        (runDown u p disc K kind m (ps, vs)).2.length = 1 := by
  intro m
  induction m with
  | zero =>
      intro ps vs h1 h2
      exact ⟨h1, h2⟩
  | succ m ih =>
      intro ps vs h1 h2
      simp only [runDown]
      have e : backstep u p disc K kind m (ps, vs) =
          ((backstep u p disc K kind m (ps, vs)).1,
           (backstep u p disc K kind m (ps, vs)).2) := rfl
      rw [e]
      exact ih _ _ (backstep_fst_length u p disc K kind m ps vs h1)
        (backstep_snd_length u p disc K kind m ps vs h1 h2)

lemma terminalAssets_length (S sigma T : ℝ) (N : ℕ) :
    (terminalAssets S sigma T N).length = N + 1 := by
  simp [terminalAssets]

lemma terminalValues_length (S K sigma T : ℝ) (N : ℕ) (kind : String) :
    (terminalValues S K sigma T N kind).length = N + 1 := by
  simp [terminalValues, terminalAssets_length]

/-! ## Helper lemmas: pointwise comparison of the two backward inductions -/

lemma forall2_le_tail {as bs : List ℝ} (h : List.Forall₂ (· ≤ ·) as bs) :
    List.Forall₂ (· ≤ ·) as.tail bs.tail := by
  cases h with
  | nil => simp
  | cons hab h => simpa using h

lemma forall2_le_dropLast {as bs : List ℝ} (h : List.Forall₂ (· ≤ ·) as bs) :
    List.Forall₂ (· ≤ ·) as.dropLast bs.dropLast := by
  induction h with
  | nil => simp
  | @cons a b t t2 hab h ih =>
      cases h with
      | nil => simp
      | @cons a2 b2 s s2 hab2 h2 =>
          rw [List.dropLast_cons₂, List.dropLast_cons₂]
          exact List.Forall₂.cons hab ih

lemma forall2_le_zipWith_expect (p disc : ℝ) (hp : 0 ≤ p * disc)
    (hq : 0 ≤ (1 - p) * disc) :
    ∀ {as as' bs bs' : List ℝ}, List.Forall₂ (· ≤ ·) as as' →
      List.Forall₂ (· ≤ ·) bs bs' →
      List.Forall₂ (· ≤ ·)
        (List.zipWith (fun a b => (p * a + (1 - p) * b) * disc) as bs)
        (List.zipWith (fun a b => (p * a + (1 - p) * b) * disc) as' bs') := by
  intro as as' bs bs' h1
  induction h1 generalizing bs bs' with
  | nil => intro h2; simp
  | @cons a a2 t t2 hab h ih =>
      intro h2
      cases h2 with
      | nil => simp
      | @cons b b2 s s2 hbb h2 =>
          simp only [List.zipWith_cons_cons]
          refine List.Forall₂.cons ?_ (ih h2)
          nlinarith [mul_nonneg hp (sub_nonneg.2 hab),
            mul_nonneg hq (sub_nonneg.2 hbb)]

lemma forall2_le_zipWith_max {cs cs' ex : List ℝ}
    (h : List.Forall₂ (· ≤ ·) cs cs') (hlen : cs'.length ≤ ex.length) :
    List.Forall₂ (· ≤ ·) cs (List.zipWith max cs' ex) := by
  induction h generalizing ex with
  | nil => simp
  | @cons a b t t2 hab h ih =>
      cases ex with
      | nil => simp at hlen
      | cons e es =>
          simp only [List.zipWith_cons_cons]
          refine List.Forall₂.cons (le_trans hab (le_max_left _ _)) (ih ?_)
          simpa using hlen

lemma forall2_le_headI {as bs : List ℝ} (h : List.Forall₂ (· ≤ ·) as bs) :
    as.headI ≤ bs.headI := by
  cases h with
  | nil => simp
  | cons hab h => simpa using hab

/-- As long as the step weights `p * disc` and `(1 - p) * disc` are both
nonnegative, the loop with the early-exercise `max` dominates, node by
node, the loop without it, starting from pointwise-dominated values. -/
lemma runDown_noex_le (u p disc K : ℝ) (kind : String)
    (hp : 0 ≤ p * disc) (hq : 0 ≤ (1 - p) * disc) :
    ∀ (m : ℕ) (ps vse vsa : List ℝ), ps.length = m + 1 → vse.length = m + 1 →
      List.Forall₂ (· ≤ ·) vse vsa →
      List.Forall₂ (· ≤ ·) (runDownNoExercise u p disc m (ps, vse)).2
        (runDown u p disc K kind m (ps, vsa)).2 := by
  intro m
  induction m with
  | zero =>
      intro ps vse vsa h1 h2 hle
      exact hle
  | succ m ih =>
      intro ps vse vsa h1 h2 hle
      have hlen : vsa.length = m + 2 := by rw [← hle.length_eq]; exact h2
      simp only [runDown, runDownNoExercise, backstep, backstepNoExercise]
      refine ih _ _ _ ?_ ?_ ?_
      · simp [List.length_take, h1]
      · simp [List.length_zipWith, h2]
      · refine forall2_le_zipWith_max
          (forall2_le_zipWith_expect p disc hp hq (forall2_le_tail hle)
            (forall2_le_dropLast hle)) ?_
        simp [List.length_zipWith, List.length_take, hlen, h1]

/-! ## Helper lemmas: closed-form values of the tree parameters at the
concrete inputs used below.  Choosing `sigma = log 2` (a positive real)
with `dt = 1` makes `u = 2` and `d = 1/2`, so every lattice quantity is
rational. -/

lemma dtOf_one_one : dtOf 1 1 = 1 := by
  simp [dtOf]

lemma dtOf_two_two : dtOf 2 2 = 1 := by
  simp [dtOf]

lemma uOf_log_two : uOf (Real.log 2) 1 1 = 2 := by
  rw [uOf, dtOf_one_one, Real.sqrt_one, mul_one, Real.exp_log]
  norm_num

lemma dOf_log_two : dOf (Real.log 2) 1 1 = 1 / 2 := by
  rw [dOf, uOf_log_two]

lemma uOf_log_two_twice : uOf (Real.log 2) 2 2 = 2 := by
  rw [uOf, dtOf_two_two, Real.sqrt_one, mul_one, Real.exp_log]
  norm_num

lemma dOf_log_two_twice : dOf (Real.log 2) 2 2 = 1 / 2 := by
  rw [dOf, uOf_log_two_twice]

lemma uOf_zero_vol (T : ℝ) (N : ℕ) : uOf 0 T N = 1 := by
  simp [uOf]

lemma discOf_zero : discOf 0 1 1 = 1 := by
  simp [discOf]

lemma discOf_zero_two : discOf 0 2 2 = 1 := by
  simp [discOf]

lemma pOf_zero_logtwo : pOf 0 (Real.log 2) (Real.log 2) 1 1 = 0 := by
  rw [pOf, dtOf_one_one, uOf_log_two, dOf_log_two]
  rw [show ((0:ℝ) - Real.log 2) * 1 = -Real.log 2 by ring]
  rw [Real.exp_neg, Real.exp_log (by norm_num : (0:ℝ) < 2)]
  norm_num

lemma pOf_neg_sixth : pOf 0 (Real.log 4) (Real.log 2) 2 2 = -(1 / 6) := by
  rw [pOf, dtOf_two_two, uOf_log_two_twice, dOf_log_two_twice]
  rw [show ((0:ℝ) - Real.log 4) * 1 = -Real.log 4 by ring]
  rw [Real.exp_neg, Real.exp_log (by norm_num : (0:ℝ) < 4)]
  norm_num

lemma pOf_seven_thirds : pOf (Real.log 4) 0 (Real.log 2) 1 1 = 7 / 3 := by
  rw [pOf, dtOf_one_one, uOf_log_two, dOf_log_two]
  rw [show (Real.log 4 - 0) * 1 = Real.log 4 by ring]
  rw [Real.exp_log (by norm_num : (0:ℝ) < 4)]
  norm_num

lemma pOf_one_third : pOf 0 0 (Real.log 2) 1 1 = 1 / 3 := by
  rw [pOf, dtOf_one_one, uOf_log_two, dOf_log_two]
  norm_num

/-- Concrete value of the whole pricer at the C6 counterexample input:
spot 100, strike 100, maturity 2, rate 0, volatility `log 2`, dividend
yield `log 4`, two steps, put. -/
lemma american_value_c6 :
    american_option_binomial 100 100 2 0 (Real.log 2) (Real.log 4) 2 "put" =
      375 / 4 := by
  rw [american_option_binomial, terminalValues, terminalAssets]
  rw [uOf_log_two_twice, dOf_log_two_twice, pOf_neg_sixth, discOf_zero_two]
  norm_num [runDown, backstep, payoff_put, List.range_succ]

/-- Concrete value of the no-early-exercise comparator at the same input. -/
lemma european_value_c6 :
    price_no_early_exercise 100 100 2 0 (Real.log 2) (Real.log 4) 2 "put" =
      1225 / 12 := by
  rw [price_no_early_exercise, terminalValues, terminalAssets]
  rw [uOf_log_two_twice, dOf_log_two_twice, pOf_neg_sixth, discOf_zero_two]
  norm_num [runDownNoExercise, backstepNoExercise, payoff_put, List.range_succ]

/-! ## Claims -/

/-- Claim C1 (code bug).  The claim says the asset price used for the
intrinsic-value comparison at step `i`, node `j`, is `spot * u^j * d^(i-j)`
(the price of the node above at step `i+1` divided by `u`).  The code
instead slices the LOWER `i+1` entries and divides them by `u`
(`asset_prices = asset_prices[:i+1] / u`), so each backward step multiplies
every node price by an extra `d^2`.  At spot 100, strike 100, maturity 1,
rate 0, volatility `log 2` (so `u = 2`), dividend yield 0, one step, the
price list used at step 0 is `[25]` (= `spot * d^2`), not
`[spot * u^0 * d^0] = [100]`. -/
theorem C1_asset_price_recompute_bug :
    (runDown (uOf (Real.log 2) 1 1) (pOf 0 0 (Real.log 2) 1 1) (discOf 0 1 1)
        100 "put" 1
        (terminalAssets 100 (Real.log 2) 1 1,
         terminalValues 100 100 (Real.log 2) 1 1 "put")).1 = [25] ∧
      (25:ℝ) ≠ 100 * uOf (Real.log 2) 1 1 ^ 0 * dOf (Real.log 2) 1 1 ^ 0 := by
  constructor
  · rw [terminalValues, terminalAssets, uOf_log_two, dOf_log_two]
    norm_num [runDown, backstep, payoff_put, List.range_succ]
  · norm_num

/-- Claim C2 (code bug).  The claim says volatility 0 is special-cased to
the discounted deterministic payoff.  There is no such branch in the code:
with volatility 0 both `u` and `d` are 1 and the computation of `p`
divides by `u - d = 0` (numpy turns this into inf and the backward update
into NaN).  At the spec's example input (rate 0.05, spot = strike = 100,
maturity 1), both the call and the put hit that division. -/
theorem C2_zero_volatility_division :
    american_option_binomial_checked 100 100 1 0.05 0 0 1 "call" =
        .error .realDivByZero ∧
      american_option_binomial_checked 100 100 1 0.05 0 0 1 "put" =
        .error .realDivByZero := by
  constructor <;>
  · rw [american_option_binomial_checked]
    rw [if_neg (by norm_num : ¬ (1:ℕ) = 0)]
    rw [dtOf_one_one, if_neg (by norm_num : ¬ (1:ℝ) < 0)]
    rw [uOf_zero_vol, dOf, uOf_zero_vol]
    norm_num

/-- Claim C3, counterexample.  The claim says a kind outside
{call, put} fails immediately with a distinct error.  It does not: at an
otherwise-valid input, kind `"wedge"` produces a normal result (no hazard
is hit) and that result is exactly the put price. -/
theorem C3_invalid_kind_not_rejected :
    american_option_binomial_checked 100 100 1 0 (Real.log 2) 0 1 "wedge" =
        .ok (american_option_binomial 100 100 1 0 (Real.log 2) 0 1 "wedge") ∧
      american_option_binomial 100 100 1 0 (Real.log 2) 0 1 "wedge" =
        american_option_binomial 100 100 1 0 (Real.log 2) 0 1 "put" := by
  constructor
  · rw [american_option_binomial_checked]
    rw [if_neg (by norm_num : ¬ (1:ℕ) = 0)]
    rw [dtOf_one_one, if_neg (by norm_num : ¬ (1:ℝ) < 0)]
    rw [uOf_log_two, dOf_log_two]
    norm_num
  · exact american_of_ne_call 100 100 1 0 (Real.log 2) 0 1 (by decide)

/-- Claim C3, amended.  A kind outside {call, put} is not rejected: the
`else` branch silently applies the put payoff, so such a kind is priced
(hazards and value alike) exactly as `"put"`. -/
theorem C3_invalid_kind_priced_as_put (S K T r sigma q : ℝ) (N : ℕ)
    (kind : String) (h1 : kind ≠ "call") (_h2 : kind ≠ "put") :
    american_option_binomial_checked S K T r sigma q N kind =
      american_option_binomial_checked S K T r sigma q N "put" := by
  rw [american_option_binomial_checked, american_option_binomial_checked,
    american_of_ne_call S K T r sigma q N h1]

/-- Witness for the amended claim C3 at the concrete kind `"strangle"`. -/
theorem C3_invalid_kind_priced_as_put_witness :
    ("strangle" ≠ "call") ∧ ("strangle" ≠ "put") ∧
      american_option_binomial_checked 1 1 1 1 1 1 2 "strangle" =
        american_option_binomial_checked 1 1 1 1 1 1 2 "put" :=
  ⟨by decide, by decide,
    C3_invalid_kind_priced_as_put 1 1 1 1 1 1 2 "strangle" (by decide)
      (by decide)⟩

/-- Claim C4 (code bug).  The claim says the pricer never silently returns
NaN, Infinity or a negative value.  With volatility 0 (an input the
documented domain allows) the computation of `p` divides by `u - d = 0`;
numpy produces inf there and the backward update silently returns NaN —
no error of any kind is reported by the code. -/
theorem C4_silent_nan_path :
    american_option_binomial_checked 50 60 2 0.03 0 0 4 "put" =
      .error .realDivByZero := by
  rw [american_option_binomial_checked]
  rw [if_neg (by norm_num : ¬ (4:ℕ) = 0)]
  rw [show dtOf 2 4 = 1 / 2 by rw [dtOf]; norm_num]
  rw [if_neg (by norm_num : ¬ (1:ℝ) / 2 < 0)]
  rw [uOf_zero_vol, dOf, uOf_zero_vol]
  norm_num

/-- Claim C5, counterexample.  The claim says a non-positive spot (or
strike, maturity, steps) fails fast with an InvalidParameter error.  The
code validates nothing: with spot = 0 and otherwise valid parameters it
runs to completion, hits no hazard, and silently returns the strike as
the put price. -/
theorem C5_nonpositive_spot_returns_result :
    american_option_binomial 0 100 1 0 (Real.log 2) 0 1 "put" = 100 ∧
      american_option_binomial_checked 0 100 1 0 (Real.log 2) 0 1 "put" =
        .ok (100:ℝ) := by
  have h : american_option_binomial 0 100 1 0 (Real.log 2) 0 1 "put" = 100 := by
    rw [american_option_binomial]
    rw [terminalValues, terminalAssets, uOf_log_two, dOf_log_two, discOf_zero]
    norm_num [runDown, backstep, payoff_put, List.range_succ]
    linarith [le_refl (100:ℝ)]
  refine ⟨h, ?_⟩
  rw [american_option_binomial_checked]
  rw [if_neg (by norm_num : ¬ (1:ℕ) = 0)]
  rw [dtOf_one_one, if_neg (by norm_num : ¬ (1:ℝ) < 0)]
  rw [uOf_log_two, dOf_log_two, h]
  norm_num

/-- Claim C5, amended.  The pricer performs no input validation: a
non-positive spot is processed like any other input.  With spot 0,
maturity 1, rate 0, one step, and any volatility that does not trip the
`u - d = 0` division hazard, the run completes without any error and
silently returns `max strike 0` as the put price, for every strike and
dividend yield — a result, not an InvalidParameter failure. -/
theorem C5_no_input_validation (K sigma q : ℝ)
    (h : uOf sigma 1 1 - dOf sigma 1 1 ≠ 0) :
    american_option_binomial_checked 0 K 1 0 sigma q 1 "put" =
      .ok (max K 0) := by
  have hval : american_option_binomial 0 K 1 0 sigma q 1 "put" = max K 0 := by
    rw [american_option_binomial, terminalValues, terminalAssets, discOf_zero]
    norm_num [runDown, backstep, payoff_put, List.range_succ]
    rcases le_total 0 K with h' | h'
    · refine Or.inl ?_
      rw [max_eq_left h']
      linarith [le_refl K]
    · refine Or.inr ?_
      rw [max_eq_right h']
      linarith [le_refl (0:ℝ)]
  rw [american_option_binomial_checked]
  rw [if_neg (by norm_num : ¬ (1:ℕ) = 0)]
  rw [dtOf_one_one, if_neg (by norm_num : ¬ (1:ℝ) < 0)]
  rw [if_neg h, hval]

/-- Witness for the amended claim C5 at strike 75, volatility `log 2`. -/
theorem C5_no_input_validation_witness :
    (uOf (Real.log 2) 1 1 - dOf (Real.log 2) 1 1 ≠ 0) ∧
      american_option_binomial_checked 0 75 1 0 (Real.log 2) 0 1 "put" =
        .ok (max (75:ℝ) 0) :=
  ⟨by rw [uOf_log_two, dOf_log_two]; norm_num,
    C5_no_input_validation 75 (Real.log 2) 0
      (by rw [uOf_log_two, dOf_log_two]; norm_num)⟩

/-- Claim C6, counterexample.  The claim's preconditions (positive spot,
strike, maturity, positive volatility, at least one step, put kind) hold
at this input, yet the American price (375/4) is strictly BELOW the
no-early-exercise price (1225/12): the dividend yield `log 4` drives the
risk-neutral probability to `-(1/6)`, the weight `1 - p` exceeds 1, and
the monotonicity argument behind "American ≥ European" breaks. -/
theorem C6_american_below_european :
    ((0:ℝ) < 100 ∧ (0:ℝ) < 100 ∧ (0:ℝ) < 2 ∧ 1 ≤ 2 ∧ 0 < Real.log 2) ∧
      american_option_binomial 100 100 2 0 (Real.log 2) (Real.log 4) 2 "put" <
        price_no_early_exercise 100 100 2 0 (Real.log 2) (Real.log 4) 2 "put" := by
  refine ⟨⟨by norm_num, by norm_num, by norm_num, by norm_num,
    Real.log_pos (by norm_num)⟩, ?_⟩
  rw [american_value_c6, european_value_c6]
  norm_num

/-- Claim C6, amended.  Whenever the risk-neutral probability `p` lies in
`[0, 1]` (which the claim's preconditions do not guarantee, since rate and
dividend yield are unconstrained), the American price from the lattice is
at least the price of the same backward induction with the early-exercise
comparison removed. -/
theorem C6_american_ge_european_of_p_unit (S K T r sigma q : ℝ) (N : ℕ)
    (kind : String) (hp0 : 0 ≤ pOf r q sigma T N)
    (hp1 : pOf r q sigma T N ≤ 1) :
    price_no_early_exercise S K T r sigma q N kind ≤
      american_option_binomial S K T r sigma q N kind := by
  have hdisc : (0:ℝ) ≤ discOf r T N := (Real.exp_pos _).le
  exact forall2_le_headI (runDown_noex_le _ _ _ K kind
    (mul_nonneg hp0 hdisc) (mul_nonneg (by linarith) hdisc) N _ _ _
    (terminalAssets_length S sigma T N)
    (terminalValues_length S K sigma T N kind)
    (List.forall₂_same.2 fun x _ => le_rfl))

/-- Witness for the amended claim C6 at a concrete input where `p = 1/3`. -/
theorem C6_american_ge_european_of_p_unit_witness :
    (0 ≤ pOf 0 0 (Real.log 2) 1 1) ∧ (pOf 0 0 (Real.log 2) 1 1 ≤ 1) ∧
      price_no_early_exercise 100 100 1 0 (Real.log 2) 0 1 "put" ≤
        american_option_binomial 100 100 1 0 (Real.log 2) 0 1 "put" :=
  ⟨by rw [pOf_one_third]; norm_num, by rw [pOf_one_third]; norm_num,
    C6_american_ge_european_of_p_unit 100 100 1 0 (Real.log 2) 0 1 "put"
      (by rw [pOf_one_third]; norm_num) (by rw [pOf_one_third]; norm_num)⟩

/-- Claim C7 (code bug).  The claim says the call price is at least the
immediate exercise value `max(spot - strike, 0)`.  Because the backward
loop recomputes asset prices with the wrong slice (see C1), the exercise
comparison at the root sees the collapsed price `spot * d^(2N)` instead of
`spot`: at spot 100, strike 10, maturity 1, rate 0, volatility `log 2`,
dividend yield `log 2`, one step, the call prices to 40, strictly below
its intrinsic value 90. -/
theorem C7_call_below_intrinsic :
    american_option_binomial 100 10 1 0 (Real.log 2) (Real.log 2) 1 "call" =
        40 ∧
      (40:ℝ) < max (100 - 10) 0 := by
  constructor
  · rw [american_option_binomial]
    rw [uOf_log_two, pOf_zero_logtwo, discOf_zero]
    rw [terminalValues, terminalAssets, uOf_log_two, dOf_log_two]
    norm_num [runDown, backstep, payoff, List.range_succ]
  · rw [max_eq_left (by norm_num : (0:ℝ) ≤ 100 - 10)]
    norm_num

/-- Claim C8 (confirmed invariant).  Each backward step consumes an
asset-price list and an option-value list of equal length `i + 2` and
produces fresh lists, both of length exactly `i + 1`; consequently after
the whole loop exactly one node remains, and the pricer returns its
value. -/
theorem C8_lattice_length_invariant (u p disc K : ℝ) (kind : String)
    (i : ℕ) (ps vs : List ℝ) (h1 : ps.length = i + 2)
    (h2 : vs.length = i + 2) :
    ((backstep u p disc K kind i (ps, vs)).1.length = i + 1 ∧
        (backstep u p disc K kind i (ps, vs)).2.length = i + 1) ∧
      ∀ (S K2 T r sigma q : ℝ) (N : ℕ) (kind2 : String),
        (runDown (uOf sigma T N) (pOf r q sigma T N) (discOf r T N) K2 kind2 N
            (terminalAssets S sigma T N,
             terminalValues S K2 sigma T N kind2)).2.length = 1 ∧
          american_option_binomial S K2 T r sigma q N kind2 =
            ((runDown (uOf sigma T N) (pOf r q sigma T N) (discOf r T N) K2
                kind2 N
                (terminalAssets S sigma T N,
                 terminalValues S K2 sigma T N kind2)).2).headI := by
  refine ⟨⟨backstep_fst_length u p disc K kind i ps vs h1,
    backstep_snd_length u p disc K kind i ps vs h1 h2⟩, ?_⟩
  intro S K2 T r sigma q N kind2
  exact ⟨(runDown_lengths _ _ _ K2 kind2 N _ _
    (terminalAssets_length S sigma T N)
    (terminalValues_length S K2 sigma T N kind2)).2, rfl⟩

/-- Witness for claim C8 at a concrete step and concrete lists. -/
theorem C8_lattice_length_invariant_witness :
    ([(1:ℝ), 2].length = 0 + 2) ∧ ([(3:ℝ), 4].length = 0 + 2) ∧
      (backstep 1 0 1 0 "put" 0 ([(1:ℝ), 2], [(3:ℝ), 4])).1.length = 0 + 1 :=
  ⟨rfl, rfl,
    (C8_lattice_length_invariant 1 0 1 0 "put" 0 [1, 2] [3, 4] rfl rfl).1.1⟩

/-- Claim C9 (confirmed).  Every kind other than the exact string
`"call"` — including arbitrary invalid strings — takes the `else` branch
of both payoff sites, so the pricer returns exactly the put price. -/
theorem C9_non_call_kind_priced_as_put (S K T r sigma q : ℝ) (N : ℕ)
    (kind : String) (h : kind ≠ "call") :
    american_option_binomial S K T r sigma q N kind =
      american_option_binomial S K T r sigma q N "put" :=
  american_of_ne_call S K T r sigma q N h

/-- Witness for claim C9 at the concrete invalid kind `"banana"`. -/
theorem C9_non_call_kind_priced_as_put_witness :
    ("banana" ≠ "call") ∧
      american_option_binomial 100 95 1 0 1 0 2 "banana" =
        american_option_binomial 100 95 1 0 1 0 2 "put" :=
  ⟨by decide,
    C9_non_call_kind_priced_as_put 100 95 1 0 1 0 2 "banana" (by decide)⟩

/-- Claim C10 (confirmed).  The risk-neutral probability is never
validated or clamped: at spot = strike = 100, maturity 1, one step,
volatility `log 2` (positive) and rate `log 4`, every stated precondition
holds, `p = 7/3 > 1` (so `1 - p` is a negative weight), and the pricer
hits no hazard — it returns the value computed with those out-of-range
weights. -/
theorem C10_p_not_validated :
    ((0:ℝ) < 100 ∧ (0:ℝ) < 100 ∧ (0:ℝ) < 1 ∧ (1:ℕ) ≤ 1 ∧ 0 < Real.log 2) ∧
      1 < pOf (Real.log 4) 0 (Real.log 2) 1 1 ∧
      american_option_binomial_checked 100 100 1 (Real.log 4) (Real.log 2) 0 1
          "put" =
        .ok (american_option_binomial 100 100 1 (Real.log 4) (Real.log 2) 0 1
          "put") := by
  refine ⟨⟨by norm_num, by norm_num, by norm_num, le_refl 1,
    Real.log_pos (by norm_num)⟩, ?_, ?_⟩
  · rw [pOf_seven_thirds]
    norm_num
  · rw [american_option_binomial_checked]
    rw [if_neg (by norm_num : ¬ (1:ℕ) = 0)]
    rw [dtOf_one_one, if_neg (by norm_num : ¬ (1:ℝ) < 0)]
    rw [uOf_log_two, dOf_log_two]
    norm_num

end BinomialTree
